import Mathlib

/-!
Verification of the PCjs x86 debugger (`src/modules/pcjs/lib/debugger.js`).

This file gives a shallow embedding of the debugger's address model, breakpoint
engine, instruction-history/trace buffers and expression evaluator, translated
from the JavaScript source, and proves or refutes the specification claims
about them.

JavaScript numbers that flow through the modelled code are integers (the
debugger applies `|0` after every arithmetic step of the expression evaluator,
and addresses/offsets are integral), so they are modelled as `Int`, with the
32-bit coercions `toInt32`/`toUint32` applied exactly where the source applies
`|0`, `>>>0`, or a bitwise operator.
-/

namespace PcjsDbg

/-- 2^32, the modulus of JavaScript's ToUint32 conversion. -/
def pow32 : Int := 4294967296

/-- 2^31, the split point of JavaScript's ToInt32 conversion. -/
def pow31 : Int := 2147483648

/-- JavaScript ToUint32: reduce an integer into `[0, 2^32)`. -/
def toUint32 (a : Int) : Int := Int.emod a pow32

/-- JavaScript ToInt32: reduce an integer into `[-2^31, 2^31)`. -/
def toInt32 (a : Int) : Int :=
  let u := toUint32 a
  if u < pow31 then u else u - pow32

/-- JavaScript bitwise AND `a & b` (ToInt32 both operands, AND, signed result). -/
def jsAnd (a b : Int) : Int :=
  toInt32 (Int.ofNat (Nat.land (toUint32 a).toNat (toUint32 b).toNat))

/-- JavaScript bitwise OR `a | b`. -/
def jsOr (a b : Int) : Int :=
  toInt32 (Int.ofNat (Nat.lor (toUint32 a).toNat (toUint32 b).toNat))

/-- JavaScript bitwise XOR `a ^ b`. -/
def jsXor (a b : Int) : Int :=
  toInt32 (Int.ofNat (Nat.xor (toUint32 a).toNat (toUint32 b).toNat))

/-- JavaScript bitwise NOT `~a`, which equals `-a-1` on the ToInt32 image. -/
def jsNot (a : Int) : Int := toInt32 (-a - 1)

/-- JavaScript `a << b`: shift the ToInt32 of `a` left by `b mod 32`. -/
def jsShl (a b : Int) : Int :=
  toInt32 (toInt32 a * Int.ofNat (2 ^ ((toUint32 b).toNat % 32)))

/-- JavaScript `a >> b`: arithmetic (sign-propagating) right shift. -/
def jsShr (a b : Int) : Int :=
  Int.fdiv (toInt32 a) (Int.ofNat (2 ^ ((toUint32 b).toNat % 32)))

/-- JavaScript `a >>> b`: logical right shift of the ToUint32 image. -/
def jsShrU (a b : Int) : Int :=
  Int.ofNat (Nat.shiftRight (toUint32 a).toNat ((toUint32 b).toNat % 32))

/-- JavaScript division truncated toward zero, as produced by `(a / b) | 0`
when both operands are 32-bit integers (the float quotient of 32-bit operands
truncates to the exact T-quotient). -/
def jsTruncDiv (a b : Int) : Int := Int.tdiv a b

/-- JavaScript remainder `a % b` (sign of the dividend, T-remainder). -/
def jsRem (a b : Int) : Int := a - b * Int.tdiv a b

/-- Modelled from the spec: `X86.ADDR_INVALID` from `x86.js`, which is not
part of the provided source tree.  The spec describes address resolution as
`resolve(addr, forWrite, byteCount) -> linearAddress | INVALID`: a sentinel
distinct from every valid linear address.  We pick `-1`, which lies outside
the (non-negative) linear address space. -/
def ADDR_INVALID : Int := -1

/-- Modelled from the spec: `X86.OPCODE.INT3` from `x86.js` (not under the
provided source tree); the x86 single-byte INT3 opcode, 0xCC.  Only used in
the INT/HALT message branch of `checkBreakpoint`, which is disabled in every
theorem below. -/
def OPCODE_INT3 : Int := 0xCC

/-- A segment as seen by the debugger (`X86Seg` from the collaborating CPU
component): the address mask, the one-past-the-limit offset bound `offMax`,
the size attributes, and the bounds-checked probe functions used by
`getAddr`.  `checkRead`/`checkWrite` take `(off, cb)` and return a linear
address or `ADDR_INVALID`. -/
structure Seg where
  maskAddr : Int
  offMax : Int
  sizeData : Int
  sizeAddr : Int
  checkRead : Int → Int → Int
  checkWrite : Int → Int → Int

/-- `DbgAddr` (debugger.js data model): segment offset, nullable selector
(`none` means a pure linear/physical address), nullable cached linear
address, address-class `type`, size flags, the temporary-breakpoint flag and
the optional attached command list of a breakpoint.  (`sCmd`, `cOverrides`
and `fComplete` are carried by the source object but are not read by any
function modelled here.) -/
structure DbgAddr where
  off : Int
  sel : Option Int
  addr : Option Int
  type : Int
  fData32 : Bool
  fAddr32 : Bool
  fTempBreak : Bool
  aCmds : Option (List String)
deriving DecidableEq, Repr

/-- The machine environment a debugger call runs against: `getSeg` is
`getSegment(sel, type)` at the current machine state, `probeAddr` is
`cpu.probeAddr` (a byte, or `none` for unmapped addresses), `maskAddr` is
the bus address mask, and `msgIntHalt` is the value of
`messageEnabled(Messages.INT | Messages.HALT)`.  The environment is held
fixed across a modelled call sequence (the machine is not running while the
debugger manipulates breakpoints). -/
structure Env where
  getSeg : Option Int → Int → Option Seg
  probeAddr : Int → Option Int
  maskAddr : Int
  msgIntHalt : Bool

/-- `getAddr(dbgAddr, fWrite, nb)` (debugger.js:1746): use the cached linear
address if present, otherwise look up the segment and run the bounds-checked
probe, caching the result (valid or not) into `dbgAddr.addr`.  Returns the
linear address (or `ADDR_INVALID`) together with the updated `DbgAddr`. -/
def getAddr (env : Env) (d : DbgAddr) (fWrite : Bool) (nb : Int) : Int × DbgAddr :=
  match d.addr with
  | some a => (a, d)
  | none =>
    match env.getSeg d.sel d.type with
    | none => (ADDR_INVALID, d)
    | some seg =>
      let a := if fWrite then seg.checkWrite d.off nb else seg.checkRead d.off nb
      (a, { d with addr := some a })

/-- `checkLimit(dbgAddr, fUpdate)` (debugger.js:1995): for a segmented
address, mask the offset with the segment's address mask and compare against
`offMax`; with `fUpdate` the masked offset and the segment's size flags are
written back.  Returns the boolean result and the (possibly updated)
address. -/
def checkLimit (env : Env) (d : DbgAddr) (fUpdate : Bool) : Bool × DbgAddr :=
  match d.sel with
  | none => (true, d)
  | some sel =>
    match env.getSeg (some sel) d.type with
    | none => (true, d)
    | some seg =>
      let off := jsAnd d.off seg.maskAddr
      if seg.offMax ≤ toUint32 off then (false, d)
      else if fUpdate then
        (true, { d with off := off, fData32 := seg.sizeData == 4, fAddr32 := seg.sizeAddr == 4 })
      else (true, d)

/-- `incAddr(dbgAddr, inc)` (debugger.js:2019): advance the cached linear
address (if any) and, for a segmented address, the offset; if `checkLimit`
then fails, reset the offset to 0 and clear the cached linear address.
`inc = 0` models the JavaScript default (`inc = inc || 1`). -/
def incAddr (env : Env) (d : DbgAddr) (inc : Int) : DbgAddr :=
  let inc := if inc = 0 then 1 else inc
  let d := match d.addr with
    | some a => { d with addr := some (a + inc) }
    | none => d
  match d.sel with
  | none => d
  | some _ =>
    let d := { d with off := d.off + inc }
    if (checkLimit env d false).1 then d
    else { d with off := 0, addr := none }

/-- `mapBreakpoint(addr)` (debugger.js:3822): remap addresses whose bits
above the low 16 are all set (relative to the machine's address mask) into
the top 64Kb of the first 1Mb. -/
def mapBreakpoint (env : Env) (addr : Int) : Int :=
  if addr != ADDR_INVALID then
    let mask := jsAnd env.maskAddr (jsNot 0xffff)
    if jsAnd addr mask == mask then jsAnd addr 0x000fffff else addr
  else addr

/-- The JavaScript `x | 0` coercion applied to a possibly-null probe result
(`null | 0` is `0`). -/
def jsOr0 : Option Int → Int
  | some v => toInt32 v
  | none => 0

/-- `getByte(dbgAddr, inc)` (debugger.js:1785): resolve for a 1-byte read;
on success return the probed byte and advance by `inc` when non-zero, on
failure return the sentinel `0xff` without advancing.  `inc = 0` models an
omitted (falsy) increment argument. -/
def getByte (env : Env) (d : DbgAddr) (inc : Int) : Int × DbgAddr :=
  let (addr, d) := getAddr env d false 1
  if addr != ADDR_INVALID then
    let b := jsOr0 (env.probeAddr addr)
    (b, if inc != 0 then incAddr env d inc else d)
  else (0xff, d)

/-- `getShort(dbgAddr, inc)` (debugger.js:1820): resolve for a 2-byte read;
sentinel `0xffff` on failure. -/
def getShort (env : Env) (d : DbgAddr) (inc : Int) : Int × DbgAddr :=
  let (addr, d) := getAddr env d false 2
  if addr != ADDR_INVALID then
    let w := jsOr (jsOr0 (env.probeAddr addr))
               (jsShl (jsOr0 (env.probeAddr (addr + 1))) 8)
    (w, if inc != 0 then incAddr env d inc else d)
  else (0xffff, d)

/-- `getLong(dbgAddr, inc)` (debugger.js:1839): resolve for a 4-byte read;
sentinel `-1` on failure. -/
def getLong (env : Env) (d : DbgAddr) (inc : Int) : Int × DbgAddr :=
  let (addr, d) := getAddr env d false 4
  if addr != ADDR_INVALID then
    let l := jsOr (jsOr (jsOr0 (env.probeAddr addr))
                     (jsShl (jsOr0 (env.probeAddr (addr + 1))) 8))
               (jsOr (jsShl (jsOr0 (env.probeAddr (addr + 2))) 16)
                 (jsShl (jsOr0 (env.probeAddr (addr + 3))) 24))
    (l, if inc != 0 then incAddr env d inc else d)
  else (-1, d)

/-!
## Instruction history and trace log

`checkInstruction` (debugger.js:3448) updates the opcode-history ring buffer
(lines 3469-3478): the current slot is overwritten via
`setAddr(dbgAddr, cpu.getIP(), cpu.getCS())` and the cursor wraps to 0 when
it reaches the buffer length.  `traceLog` (debugger.js:3037) appends to the
separate trace-string buffer and, when that buffer fills, turns every
tracing flag off instead of wrapping.
-/

/-- State for the instruction-history fragment of `checkInstruction`:
the ring buffer of `(IP, CS)` pairs recorded per retired instruction
(`aOpcodeHistory`, each slot updated in place by `setAddr`), the write
cursor `iOpcodeHistory`, and — to observe that this code never touches
them — the `traceEnabled` flags owned by `traceLog`. -/
structure HistState where
  aOpcodeHistory : List (Int × Int)
  iOpcodeHistory : Nat
  traceEnabled : List (String × Bool)
deriving DecidableEq, Repr

/-- The history update of `checkInstruction` (debugger.js:3474-3476) for one
retired instruction at `(IP, CS) = a`: overwrite the cursor's slot, then
advance the cursor, wrapping to 0 when it reaches the buffer length.  The
tracing flags are not consulted or modified. -/
def recordHistory (st : HistState) (a : Int × Int) : HistState :=
  let hist := st.aOpcodeHistory.set st.iOpcodeHistory a
  let i := st.iOpcodeHistory + 1
  { st with
    aOpcodeHistory := hist
    iOpcodeHistory := if i == hist.length then 0 else i }

/-- State owned by `traceLog`/`traceInit`: the trace-string buffer (slots
are `none` until written, matching `new Array(TRACE_LIMIT)`), the cursor,
and the per-category tracing flags. -/
structure TraceState where
  aTraceBuffer : List (Option String)
  iTraceBuffer : Nat
  traceEnabled : List (String × Bool)
deriving DecidableEq, Repr

/-- `Debugger.TRACE_LIMIT` (debugger.js:653). -/
def TRACE_LIMIT : Nat := 100000

/-- `traceLog(prop, ...)` (debugger.js:3037) with the formatted trace line
abstracted as `s`: when tracing of `prop` is enabled, allocate the buffer on
first use, store `s` at the cursor and advance it; if the cursor then
reaches the buffer length, every tracing flag is turned off instead of
wrapping the cursor.  (The store at the cursor appends when the cursor
equals the length, as JavaScript index assignment does; the cursor never
exceeds the length.) -/
def traceLog (st : TraceState) (prop : String) (s : String) : TraceState :=
  if (st.traceEnabled.lookup prop).getD false then
    let buf := if st.aTraceBuffer.isEmpty then List.replicate TRACE_LIMIT none
               else st.aTraceBuffer
    let buf := if st.iTraceBuffer < buf.length then buf.set st.iTraceBuffer (some s)
               else buf ++ [some s]
    let i := st.iTraceBuffer + 1
    if buf.length ≤ i then
      { aTraceBuffer := buf, iTraceBuffer := i
        traceEnabled := st.traceEnabled.map fun p => (p.1, false) }
    else
      { st with aTraceBuffer := buf, iTraceBuffer := i }
  else st

/-!
## Breakpoint lists

JavaScript breakpoint arrays keep a descriptive name in slot 0 and the
breakpoints from index 1 on (`for (var i = 1; ...)`); the lists below hold
only the breakpoint entries, so index `i` here corresponds to `i+1` there.
-/

/-- The body of `findBreakpoint`'s scan loop (debugger.js:3726-3747): each
visited entry has its linear address resolved (and cached) by `getAddr`; an
entry matches when the query's mapped linear address equals the entry's
mapped linear address, or — when the query is unresolvable — when selector
and offset coincide.  With `fRemove` the first match is removed (the
`bus.removeMemBreak` call only happens for non-exec lists, which are not
modelled here).  Returns the found flag and the updated list. -/
def findBPAux (env : Env) (addr : Int) (d : DbgAddr) (fRemove fTempBreak : Bool) :
    List DbgAddr → Bool × List DbgAddr
  | [] => (false, [])
  | e :: rest =>
    let (ae, e1) := getAddr env e false 1
    if (addr != ADDR_INVALID && addr == mapBreakpoint env ae) ||
       (addr == ADDR_INVALID && d.sel == e.sel && d.off == e.off) then
      if !fTempBreak || e.fTempBreak then
        if fRemove then (true, rest) else (true, e1 :: rest)
      else
        let r := findBPAux env addr d fRemove fTempBreak rest
        (r.1, e1 :: r.2)
    else
      let r := findBPAux env addr d fRemove fTempBreak rest
      (r.1, e1 :: r.2)

/-- `findBreakpoint(aBreak, dbgAddr, fRemove, fTempBreak, fQuiet)`
(debugger.js:3722): resolve and map the query address, scan the list.
Returns the found flag, the updated list, and the query address with its
resolution cached (the source mutates `dbgAddr` through `getAddr`).  The
`fQuiet` argument only suppresses printing and is dropped. -/
def findBreakpoint (env : Env) (aBreak : List DbgAddr) (d : DbgAddr)
    (fRemove fTempBreak : Bool) : Bool × List DbgAddr × DbgAddr :=
  let (a0, d1) := getAddr env d false 1
  let addr := mapBreakpoint env a0
  let r := findBPAux env addr d1 fRemove fTempBreak aBreak
  (r.1, r.2, d1)

/-- `addBreakpoint(aBreak, dbgAddr, fTempBreak)` (debugger.js:3655)
specialized to `aBreak = this.aBreakExec`, so the memory-breakpoint
registration branch (lines 3673-3685, guarded by `aBreak != this.aBreakExec`)
is not taken and `fSuccess` remains true.  A permanent add first removes any
existing breakpoint at the same address; a temporary add pins the linear
address by clearing the selector (when a cached linear address exists) and
sets the temp flag.  Returns `fSuccess`, the new list, and the pushed
breakpoint object. -/
def addBreakpointExec (env : Env) (aBreak : List DbgAddr) (d : DbgAddr)
    (fTempBreak : Bool) : Bool × List DbgAddr × DbgAddr :=
  let (aBreak, d) :=
    if !fTempBreak then
      let r := findBreakpoint env aBreak d true false
      (r.2.1, r.2.2)
    else (aBreak, d)
  let d :=
    if fTempBreak then
      let d := if d.addr != none then { d with sel := none } else d
      { d with fTempBreak := true }
    else d
  (true, aBreak ++ [d], d)

/-!
## Running a breakpoint's attached commands

`doCommand` dispatches on the whole command language and mutates the entire
machine; for the control-flow properties of `checkBreakpoint` it is an
external collaborator, so it is abstracted as a state transformer returning
the source's "command processed" boolean.
-/

/-- The command dispatcher and CPU run-state as seen by `checkBreakpoint`:
`doCmd s` is `doCommand(s, true)` and `isRunning` is `cpu.isRunning()`. -/
structure Machine (σ : Type) where
  doCmd : String → σ → Bool × σ
  isRunning : σ → Bool

/-- The `else`-scan of `checkBreakpoint` (debugger.js:3923-3927): the first
index `k ≥ j` such that `a[k]` starts with `"else"` (`!a[k].indexOf("else")`),
or `none` when there is none. -/
def findElseFrom (a : List String) (j : Nat) : Option Nat :=
  findElseGo (a.drop j) j
where
  /-- Scan helper carrying the absolute index. -/
  findElseGo : List String → Nat → Option Nat
    | [], _ => none
    | s :: rest, k => if s.startsWith "else" then some k else findElseGo rest (k + 1)

/-- The attached-command loop of `checkBreakpoint` (debugger.js:3917-3937),
iterating by index `j`: run each command; when one fails, a command not
starting with `"if"` aborts with a forced hit, a failed `"if"` jumps to the
next command starting with `"else"` (aborting with a forced hit when there
is none).  `fuel` only bounds the recursion: every step moves `j` forward by
at least one, so `a.length + 1` units never run out. -/
def runCmdsLoop {σ : Type} (M : Machine σ) (a : List String) :
    Nat → Nat → σ → Bool × σ
  | 0, _, st => (false, st)
  | fuel + 1, j, st =>
    match a[j]? with
    | none => (false, st)
    | some c =>
      let r := M.doCmd c st
      if r.1 then runCmdsLoop M a fuel (j + 1) r.2
      else if !(c.startsWith "if") then (true, r.2)
      else
        match findElseFrom a (j + 1) with
        | none => (true, r.2)
        | some k => runCmdsLoop M a fuel k r.2

/-- Lines 3916-3938 of `checkBreakpoint`: run the attached commands with
`fBreak` initially false, then force a hit if the CPU is no longer running.
Returns the hit flag and the machine state after the commands. -/
def runBpCmds {σ : Type} (M : Machine σ) (a : List String) (st : σ) : Bool × σ :=
  let r := runCmdsLoop M a (a.length + 1) 0 st
  (r.1 || !(M.isRunning r.2), r.2)

/-- The byte-span scan of `checkBreakpoint` (debugger.js:3897-3898): some
`n < nb` satisfies `addr + n == addrBreak`. -/
def spanHit (addr : Int) (nb : Nat) (addrBreak : Int) : Bool :=
  (List.range nb).any fun n => addr + Int.ofNat n == addrBreak

/-- The entry-scan loop of `checkBreakpoint` (debugger.js:3872-3946),
iterating by index `i`.  For each non-skipped entry: zap the cached linear
address of segmented breakpoints, re-resolve and map, and test the byte
span.  On a match, a temporary breakpoint removes itself (and raises the
local `fTempBreak`); attached commands decide the hit via `runBpCmds`,
otherwise the hit is immediate.  `fuel` only bounds the recursion: each step
increments `i` while the list never grows, so `aBreak.length + 1` units
never run out. -/
def cbLoop {σ : Type} (env : Env) (M : Machine σ) (addr : Int) (nb : Nat) :
    Nat → Nat → Bool → List DbgAddr → σ → Bool × List DbgAddr × σ
  | 0, _, _, aBreak, st => (false, aBreak, st)
  | fuel + 1, i, fTempBreak, aBreak, st =>
    match aBreak[i]? with
    | none => (false, aBreak, st)
    | some e =>
      if fTempBreak && !e.fTempBreak then
        cbLoop env M addr nb fuel (i + 1) fTempBreak aBreak st
      else
        let e0 := if e.sel != none then { e with addr := none } else e
        let (ae, e1) := getAddr env e0 false 1
        let aBreak := aBreak.set i e1
        let addrBreak := mapBreakpoint env ae
        if spanHit addr nb addrBreak then
          let p :=
            if e1.fTempBreak then
              (true, (findBreakpoint env aBreak e1 true true).2.1)
            else (fTempBreak, aBreak)
          match e1.aCmds with
          | some cmds =>
            let r := runBpCmds M cmds st
            if r.1 then (true, p.2, r.2)
            else cbLoop env M addr nb fuel (i + 1) p.1 p.2 r.2
          | none => (true, p.2, st)
        else cbLoop env M addr nb fuel (i + 1) fTempBreak aBreak st

/-- `checkBreakpoint(addr, nb, aBreak, fTempBreak)` (debugger.js:3849): when
not re-entered (`nSuppressBreaks` was 0), map the probed address, check the
INT3-message condition, and scan the breakpoint list.  Returns the hit flag,
the updated list and the machine state. -/
def checkBreakpoint {σ : Type} (env : Env) (M : Machine σ) (nSuppressBreaks : Nat)
    (addr : Int) (nb : Nat) (aBreak : List DbgAddr) (fTempBreak : Bool) (st : σ) :
    Bool × List DbgAddr × σ :=
  if nSuppressBreaks != 0 then (false, aBreak, st)
  else
    let addr := mapBreakpoint env addr
    if env.msgIntHalt && (env.probeAddr addr == some OPCODE_INT3) then
      (true, aBreak, st)
    else cbLoop env M addr nb (aBreak.length + 1) 0 fTempBreak aBreak st

/-!
## Expression evaluator
-/

/-- `Debugger.aBinOpPrecedence` (debugger.js:4682): the static precedence
table of the fixed binary-operator set.  Lookup of a key outside the table
yields JavaScript `undefined`; the `-1` default below is unreachable in the
modelled flow, because every separator the tokenizer can produce is a table
key. -/
def aBinOpPrecedence (op : String) : Int :=
  if op == "||" then 0
  else if op == "&&" then 1
  else if op == "|" then 2
  else if op == "^" then 3
  else if op == "&" then 4
  else if op == "!=" then 5
  else if op == "==" then 5
  else if op == ">=" then 6
  else if op == ">" then 6
  else if op == "<=" then 6
  else if op == "<" then 6
  else if op == ">>>" then 7
  else if op == ">>" then 7
  else if op == "<<" then 7
  else if op == "-" then 8
  else if op == "+" then 8
  else if op == "%" then 9
  else if op == "/" then 9
  else if op == "*" then 9
  else -1

/-- The operator switch of `evalExpression` (debugger.js:4722-4784): apply
one binary operator to `val1`, `val2` with JavaScript arithmetic.  `none`
models the `return false` cases: division or remainder by zero, and the
`default` case of an operator outside the fixed set. -/
def applyBinOp (chOp : String) (val1 val2 : Int) : Option Int :=
  if chOp == "*" then some (val1 * val2)
  else if chOp == "/" then (if val2 == 0 then none else some (jsTruncDiv val1 val2))
  else if chOp == "%" then (if val2 == 0 then none else some (jsRem val1 val2))
  else if chOp == "+" then some (val1 + val2)
  else if chOp == "-" then some (val1 - val2)
  else if chOp == "<<" then some (jsShl val1 val2)
  else if chOp == ">>" then some (jsShr val1 val2)
  else if chOp == ">>>" then some (jsShrU val1 val2)
  else if chOp == "<" then some (if val1 < val2 then 1 else 0)
  else if chOp == "<=" then some (if val1 ≤ val2 then 1 else 0)
  else if chOp == ">" then some (if val2 < val1 then 1 else 0)
  else if chOp == ">=" then some (if val2 ≤ val1 then 1 else 0)
  else if chOp == "==" then some (if val1 == val2 then 1 else 0)
  else if chOp == "!=" then some (if val1 != val2 then 1 else 0)
  else if chOp == "&" then some (jsAnd val1 val2)
  else if chOp == "^" then some (jsXor val1 val2)
  else if chOp == "|" then some (jsOr val1 val2)
  else if chOp == "&&" then some (if val1 != 0 && val2 != 0 then 1 else 0)
  else if chOp == "||" then some (if val1 != 0 || val2 != 0 then 1 else 0)
  else none

/-- `evalExpression(aVals, aOps, cOps)` (debugger.js:4713): pop and apply up
to `cOps` operators (`none` models the `-1` "all" default).  Stacks grow at
the head (array end).  The operator is popped before the stack-depth check,
and a failing operator application has already popped both values, exactly
as in the source; the boolean result and both (mutated) stacks are
returned. -/
def evalExpression (cOps : Option Nat) :
    List Int → List String → Bool × List Int × List String
  | aVals, [] => (true, aVals, [])
  | aVals, chOp :: aOps =>
    if cOps == some 0 then (true, aVals, chOp :: aOps)
    else
      match aVals with
      | [] => (false, [], aOps)
      | [v] => (false, [v], aOps)
      | val2 :: val1 :: aVals =>
        match applyBinOp chOp val1 val2 with
        | none => (false, aVals, aOps)
        | some valNew =>
          evalExpression (match cOps with | none => none | some n => some (n - 1))
            (toInt32 valNew :: aVals) aOps

/-!
### Tokenization

`parseExpression` splits on the capturing regular expression
`/(\|\||&&|\||^|&|!=|==|>=|>>>|>>|>|<=|<<|<|-|\+|%|\/|\*)/`
(debugger.js:4846).  The `^` alternative is not escaped, so it is a
start-of-input anchor rather than a literal caret: at position 0 it matches
the empty string after `\|\|`, `&&` and `\|` have failed (String.split
skips empty matches, so no separator results and the scan advances); at any
later position it cannot match at all.  Consequently only `||`, `&&` and
`|` can split at position 0, a literal `^` character never splits anywhere,
and every other operator splits at positions past 0, alternatives tried in
the written order.
-/

/-- The operator alternatives that precede the `^` anchor in the split
regular expression, the only ones that can win at position 0. -/
def opAltsAtStart : List String := ["||", "&&", "|"]

/-- All literal operator alternatives of the split regular expression, in
matching order (the `^` anchor cannot match past position 0). -/
def opAlts : List String :=
  ["||", "&&", "|", "&", "!=", "==", ">=", ">>>", ">>", ">", "<=", "<<", "<",
   "-", "+", "%", "/", "*"]

/-- First alternative of `alts` that is a prefix of the character stream. -/
def matchAlt (alts : List String) (cs : List Char) : Option String :=
  alts.find? fun a => cs.take a.length == a.data

/-- The split scan: walk the characters, emitting the accumulated value
characters and the separator at each operator match.  `atStart` is true
only at position 0, where just `opAltsAtStart` can match.  `fuel` only
bounds the recursion: each step consumes at least one character, so
`cs.length + 1` units never run out. -/
def splitLoop : Nat → List Char → List Char → Bool → List String
  | 0, _, acc, _ => [String.mk acc.reverse]
  | _ + 1, [], acc, _ => [String.mk acc.reverse]
  | fuel + 1, c :: cs, acc, atStart =>
    match matchAlt (if atStart then opAltsAtStart else opAlts) (c :: cs) with
    | some op =>
      String.mk acc.reverse :: op :: splitLoop fuel ((c :: cs).drop op.length) [] false
    | none => splitLoop fuel cs (c :: acc) false

/-- `sExp.split(regExp)` of `parseExpression` (debugger.js:4846-4847): the
interleaved list of values (even positions) and operators (odd positions). -/
def splitExpr (s : String) : List String :=
  splitLoop (s.data.length + 1) s.data [] true

/-- JavaScript `str.trim(s)` (support library): strip leading and trailing
whitespace. -/
def jsTrim (s : String) : String :=
  String.mk ((s.data.dropWhile Char.isWhitespace).reverse.dropWhile
    Char.isWhitespace).reverse

/-- JavaScript `toUpperCase` on one ASCII character: map `a`-`z` to
`A`-`Z`. -/
def upCharJS (c : Char) : Char :=
  if 97 ≤ c.toNat && c.toNat ≤ 122 then Char.ofNat (c.toNat - 32) else c

/-- JavaScript `toUpperCase` on an ASCII string. -/
def toUpperJS (s : String) : String :=
  String.mk (s.data.map upCharJS)

/-- `Debugger.REGS` (debugger.js:440): the fixed register-name table,
`none` for the null gaps; the position of a name is its register index. -/
def REGS : List (Option String) :=
  [some "AL",  some "CL",  some "DL",  some "BL",
   some "AH",  some "CH",  some "DH",  some "BH",
   some "AX",  some "CX",  some "DX",  some "BX",
   some "SP",  some "BP",  some "SI",  some "DI",
   some "ES",  some "CS",  some "SS",  some "DS",
   some "FS",  some "GS",  some "IP",  some "PS",
   some "EAX", some "ECX", some "EDX", some "EBX",
   some "ESP", some "EBP", some "ESI", some "EDI",
   some "CR0", some "CR1", some "CR2", some "CR3",
   none, none, none, none,
   some "DR0", some "DR1", some "DR2", some "DR3",
   none, none, some "DR6", some "DR7",
   none, none, none, none,
   none, none, some "TR6", some "TR7",
   some "EIP"]

/-- Position of `x` in `l`, or `none`: `usr.indexOf` (support library)
restricted to a hit/miss answer. -/
def indexOfAux {α : Type} [BEq α] (l : List α) (x : α) : Option Nat :=
  match l with
  | [] => none
  | y :: ys => if y == x then some 0 else (indexOfAux ys x).map (· + 1)

/-- `getRegIndex(sReg)` (debugger.js:2580) with the `off` argument omitted:
upper-case the token and look for an exact match in `REGS`. -/
def getRegIndex (sReg : String) : Option Nat :=
  indexOfAux REGS (some (toUpperJS sReg))

/-- Modelled from the spec: `str.parseInt` from the support library (not
under the provided source tree).  Per the spec, a numeric literal is
hexadecimal by default and decimal when a trailing period is present;
a string that is not a valid literal yields no value. -/
def parseIntSpec (s : String) : Option Int :=
  let hexVal : Char → Option Nat := fun c =>
    if 48 ≤ c.toNat && c.toNat ≤ 57 then some (c.toNat - 48)
    else if 97 ≤ c.toNat && c.toNat ≤ 102 then some (c.toNat - 87)
    else if 65 ≤ c.toNat && c.toNat ≤ 70 then some (c.toNat - 55)
    else none
  let decVal : Char → Option Nat := fun c =>
    if 48 ≤ c.toNat && c.toNat ≤ 57 then some (c.toNat - 48) else none
  let digitsIn : (Char → Option Nat) → Nat → List Char → Option Nat :=
    fun dv base cs =>
      cs.foldl (fun acc c => match acc, dv c with
        | some n, some v => some (n * base + v)
        | _, _ => none) (some 0)
  match s.data.getLast? with
  | none => none
  | some c =>
    if c == '.' then (digitsIn decVal 10 s.data.dropLast).map Int.ofNat
    else (digitsIn hexVal 16 s.data).map Int.ofNat

/-- The variable table and live register values consulted by `parseValue`:
`vars` is `aVariables` (`let`-defined user variables) and `regValue` is
`getRegValue` at the current CPU state. -/
structure EvalEnv where
  vars : List (String × Int)
  regValue : Nat → Option Int

/-- `parseValue(sValue, sName, fQuiet)` (debugger.js:4921) without its
printing: try a register name, then a user variable, then a numeric
literal. -/
def parseValue (env : EvalEnv) (s : String) : Option Int :=
  match getRegIndex s with
  | some iReg => env.regValue iReg
  | none =>
    match env.vars.lookup s with
    | some v => some v
    | none => parseIntSpec s

/-- The token loop of `parseExpression` (debugger.js:4848-4871), consuming
the split list two entries at a time: push each resolved value; before
pushing an operator of strictly lower precedence than the operator on top
of the stack, reduce once (the boolean result of that reduction is ignored,
exactly as in the source).  Returns the final stacks, or `none` on an empty
or unresolvable token. -/
def peLoop (env : EvalEnv) :
    List String → List Int → List String → Option (List Int × List String)
  | [], aVals, aOps => some (aVals, aOps)
  | [sValue], aVals, aOps =>
    let s := jsTrim sValue
    if s.isEmpty then none
    else
      match parseValue env s with
      | none => none
      | some v => some (v :: aVals, aOps)
  | sValue :: sOp :: rest, aVals, aOps =>
    let s := jsTrim sValue
    if s.isEmpty then none
    else
      match parseValue env s with
      | none => none
      | some v =>
        let aVals := v :: aVals
        let p :=
          match aOps with
          | [] => (aVals, aOps)
          | top :: _ =>
            if aBinOpPrecedence sOp < aBinOpPrecedence top then
              let r := evalExpression (some 1) aVals aOps
              (r.2.1, r.2.2)
            else (aVals, aOps)
        peLoop env rest p.1 (sOp :: p.2)

/-- `parseExpression(sExp, fPrint)` (debugger.js:4823) on an input free of
`{...}`/`[...]` references, on which the preliminary `parseReference` pass
(debugger.js:4897-4910) is the identity: tokenize, run the token loop,
reduce fully, and demand a single remaining value; `none` is the undefined
sentinel of the source. -/
def parseExpression (env : EvalEnv) (sExp : String) : Option Int :=
  if sExp.isEmpty then none
  else
    match peLoop env (splitExpr sExp) [] [] with
    | none => none
    | some (aVals, aOps) =>
      let r := evalExpression none aVals aOps
      if r.1 && r.2.1.length == 1 then r.2.1.head? else none

/-!
## Claim-side model of the attached-command protocol (for claim C5)

The claim describes the command protocol over the command list itself
rather than over indices; `specRunCmds` is written from the claim's words
and compared with the index-based code model `runCmdsLoop`.
-/

/-- Auxiliary bound for the termination of `specRunCmds`. -/
theorem dropWhile_length_le {α : Type} (p : α → Bool) (l : List α) :
    (l.dropWhile p).length ≤ l.length := by
  induction l with
  | nil => simp [List.dropWhile]
  | cons x xs ih =>
    by_cases h : p x = true
    · simpa [List.dropWhile, h] using Nat.le_trans ih (Nat.le_succ _)
    · simp [List.dropWhile, h]

/-- Claim model: run the attached commands in order; a failing command that
does not start with `"if"` aborts (`none`); a failing `"if"` skips forward
to the next command starting with `"else"`, aborting when there is none;
completion returns the final machine state. -/
def specRunCmds {σ : Type} (M : Machine σ) : List String → σ → Option σ
  | [], st => some st
  | c :: rest, st =>
    let r := M.doCmd c st
    if r.1 then specRunCmds M rest r.2
    else if !(c.startsWith "if") then none
    else
      let restFromElse := rest.dropWhile fun s => !(s.startsWith "else")
      if restFromElse.isEmpty then none
      else specRunCmds M restFromElse r.2
termination_by l => l.length
decreasing_by
  all_goals simp only [List.length_cons]
  · omega
  · exact Nat.lt_succ_of_le (dropWhile_length_le _ _)

/-- Claim model of "the breakpoint check reports a hit": the command run
aborted, or it completed with the CPU no longer running. -/
def specBpCmdsHit {σ : Type} (M : Machine σ) (a : List String) (st : σ) : Bool :=
  match specRunCmds M a st with
  | none => true
  | some stf => !(M.isRunning stf)

/-!
## Claim theorems
-/

/-- An evaluation environment with no user variables (`aVariables` starts
empty) and no live register values; the tokens of the expressions below
resolve as numeric literals either way. -/
def emptyEvalEnv : EvalEnv := { vars := [], regValue := fun _ => none }

/-- C2: the claim states that for tokens resolving to values `a` and `b`,
evaluating `"a^b"` yields their bitwise XOR rather than an evaluation
error.  The code violates this: the precedence table assigns `^` the
claimed precedence 3 (between `|` at 2 and `&` at 4) and `evalExpression`
computes XOR (here `5 ^ 3 = 6`), but the split regular expression of
`parseExpression` (debugger.js:4846) leaves `^` unescaped, making it a
start-of-input anchor instead of a literal, so `"5^3"` is never tokenized:
it is handed to `parseValue` as a single token, fails to resolve, and
`parseExpression` returns the undefined sentinel. -/
theorem C2_xor_never_tokenized :
    parseExpression emptyEvalEnv "5^3" = none ∧
    splitExpr "5^3" = ["5^3"] ∧
    evalExpression none [3, 5] ["^"] = (true, [6], []) ∧
    aBinOpPrecedence "|" < aBinOpPrecedence "^" ∧
    aBinOpPrecedence "^" < aBinOpPrecedence "&" := by
  refine ⟨by decide, by decide, by decide, by decide, by decide⟩

/-- C8: evaluating `"2+3*4"` yields 14 — the incoming `*` does not reduce
the stacked `+` (9 is not strictly lower than 8), so the multiplication is
applied first; and in `"2*3+4"` the incoming `+` (8, strictly lower than 9)
reduces the stacked `*` before being pushed, yielding 10.  Together these
exercise both sides of the strictly-lower-precedence reduction rule of
`parseExpression`/`evalExpression`. -/
theorem C8_precedence_2_plus_3_times_4 :
    parseExpression emptyEvalEnv "2+3*4" = some 14 ∧
    parseExpression emptyEvalEnv "2*3+4" = some 10 := by
  refine ⟨by decide, by decide⟩

/-- C10 counterexample: the claim states that every expression containing
a `/` or `%` whose right operand evaluates to 0 makes `parseExpression`
return the undefined sentinel.  `"1/0+2|3"` refutes it: the incoming `+`
(precedence 8 < 9) triggers a mid-parse reduction in which `1/0` fails —
`evalExpression` does return false, consuming both values (third
conjunct) — but `parseExpression` ignores that boolean (debugger.js:4867);
the later incoming `|` (precedence 2 < 8) triggers a reduction that
underflows, popping the `+` operator before the stack-depth check
(debugger.js:4717-4718) without consuming values (fourth conjunct), which
cancels the imbalance, and the final reduction computes `2|3`: the
expression evaluates to the defined numeric value 3, not the undefined
sentinel. -/
theorem C10_counterexample :
    parseExpression emptyEvalEnv "1/0+2|3" = some 3 ∧
    splitExpr "1/0+2|3" = ["1", "/", "0", "+", "2", "|", "3"] ∧
    evalExpression (some 1) [0, 1] ["/"] = (false, [], []) ∧
    evalExpression (some 1) [2] ["+"] = (false, [2], []) := by
  refine ⟨by decide, by decide, by decide, by decide⟩

/-- C10 amended: every application of `/` or `%` to a zero right operand
makes `evalExpression` return false, consuming the operator and both
values and pushing nothing (no exception, no infinity/NaN result); and
`parseExpression` returns the undefined sentinel whenever the failure
occurs in the final full reduction — whose boolean the code does check —
as in `"5/0"`, `"5%0"` and `"1/0*3"` (zero right operand computed by a
prior reduction).  A divide-by-zero failure inside a mid-parse reduction,
however, is ignored (debugger.js:4867), and a later stack underflow can
cancel the imbalance so that `parseExpression` returns a defined numeric
value (see the counterexample). -/
theorem C10_div_zero_amended :
    (∀ (cOps : Option Nat) (v1 : Int) (aVals : List Int) (aOps : List String),
      cOps ≠ some 0 →
      evalExpression cOps (0 :: v1 :: aVals) ("/" :: aOps) = (false, aVals, aOps)) ∧
    (∀ (cOps : Option Nat) (v1 : Int) (aVals : List Int) (aOps : List String),
      cOps ≠ some 0 →
      evalExpression cOps (0 :: v1 :: aVals) ("%" :: aOps) = (false, aVals, aOps)) ∧
    (∀ (env : EvalEnv) (s : String) (p : List Int × List String),
      s.isEmpty = false →
      peLoop env (splitExpr s) [] [] = some p →
      (evalExpression none p.1 p.2).1 = false →
      parseExpression env s = none) ∧
    parseExpression emptyEvalEnv "5/0" = none ∧
    parseExpression emptyEvalEnv "5%0" = none ∧
    parseExpression emptyEvalEnv "1/0*3" = none := by
  refine ⟨?_, ?_, ?_, by decide, by decide, by decide⟩
  · intro cOps v1 aVals aOps h
    have hc : (cOps == some 0) = false := by
      cases cOps with
      | none => rfl
      | some n => simpa using fun hn => h (by simp [hn])
    simp [evalExpression, hc, applyBinOp]
  · intro cOps v1 aVals aOps h
    have hc : (cOps == some 0) = false := by
      cases cOps with
      | none => rfl
      | some n => simpa using fun hn => h (by simp [hn])
    simp [evalExpression, hc, applyBinOp]
  · intro env s p hne hloop heval
    unfold parseExpression
    rw [hne]
    simp only [Bool.false_eq_true, if_false, hloop]
    rw [heval]
    simp

/-- C10 witness: the clauses of `C10_div_zero_amended` at concrete inputs
— divide-by-zero and remainder-by-zero applications on concrete stacks,
and the final-reduction propagation at `"5/0"` (whose token loop leaves
the stacks `[0, 5]` and `["/"]`, and whose final reduction fails). -/
theorem C10_div_zero_witness :
    evalExpression none (0 :: 7 :: []) ("/" :: []) = (false, [], []) ∧
    evalExpression (some 1) (0 :: 9 :: [4]) ("%" :: ["+"]) = (false, [4], ["+"]) ∧
    parseExpression emptyEvalEnv "5/0" = none :=
  ⟨C10_div_zero_amended.1 none 7 [] [] (by decide),
   C10_div_zero_amended.2.1 (some 1) 9 [4] ["+"] (by decide),
   C10_div_zero_amended.2.2.1 emptyEvalEnv "5/0" ([0, 5], ["/"])
     (by decide) (by decide) (by decide)⟩

/-- A three-slot instruction-history state (capacity C = 3) with one
tracing flag enabled, used to exercise `recordHistory` past capacity. -/
def c1HistStart : HistState :=
  { aOpcodeHistory := [(0, 0), (0, 0), (0, 0)], iOpcodeHistory := 0
    traceEnabled := [("ADD", true)] }

/-- C1 counterexample: the claim states that once the instruction-history
ring buffer holds C retired-instruction addresses, the (C+1)-th retirement
disables all tracing flags rather than overwriting slot 0.  With capacity
C = 3, recording four addresses instead overwrites slot 0 with the fourth
address and leaves the tracing flag enabled: `checkInstruction`
(debugger.js:3476) wraps the cursor (`if (++this.iOpcodeHistory ==
this.aOpcodeHistory.length) this.iOpcodeHistory = 0`). -/
theorem C1_counterexample :
    (recordHistory (recordHistory (recordHistory (recordHistory
        c1HistStart (10, 8)) (20, 8)) (30, 8)) (40, 8)) =
      { aOpcodeHistory := [(40, 8), (20, 8), (30, 8)], iOpcodeHistory := 1
        traceEnabled := [("ADD", true)] } := by
  decide

/-- C1 amended: the instruction-history ring buffer wraps — the retirement
that fills slot C-1 returns the cursor to 0 and the next retirement
overwrites slot 0 — and tracing flags are never touched by it; it is the
separate trace-log buffer of `traceLog` that, on the entry filling it to
capacity, turns every tracing flag off instead of wrapping. -/
theorem C1_amended :
    (∀ (st : HistState) (a : Int × Int),
      st.iOpcodeHistory + 1 = st.aOpcodeHistory.length →
      recordHistory st a =
        { st with aOpcodeHistory := st.aOpcodeHistory.set st.iOpcodeHistory a
                  iOpcodeHistory := 0 }) ∧
    (∀ (st : HistState) (a : Int × Int),
      st.iOpcodeHistory = 0 → st.aOpcodeHistory ≠ [] →
      (recordHistory st a).aOpcodeHistory.head? = some a ∧
      (recordHistory st a).traceEnabled = st.traceEnabled) ∧
    (∀ (st : TraceState) (prop s : String),
      (st.traceEnabled.lookup prop).getD false = true →
      st.iTraceBuffer + 1 = st.aTraceBuffer.length →
      ∀ q ∈ (traceLog st prop s).traceEnabled, q.2 = false) := by
  refine ⟨?_, ?_, ?_⟩
  · intro st a h
    have hlen : (st.aOpcodeHistory.set st.iOpcodeHistory a).length =
        st.aOpcodeHistory.length := List.length_set ..
    simp only [recordHistory, hlen, ← h]
    simp
  · intro st a h0 hne
    cases hhist : st.aOpcodeHistory with
    | nil => exact absurd hhist hne
    | cons x xs => simp [recordHistory, hhist, h0]
  · intro st prop s hen hfill
    have hne : st.aTraceBuffer.isEmpty = false := by
      cases h : st.aTraceBuffer with
      | nil => rw [h] at hfill; simp at hfill
      | cons x xs => simp [h]
    have hlt : st.iTraceBuffer < st.aTraceBuffer.length := by omega
    have hres : (traceLog st prop s).traceEnabled =
        st.traceEnabled.map fun p => (p.1, false) := by
      simp [traceLog, hen, hne, hlt, List.length_set, ← hfill]
    intro q hq
    rw [hres] at hq
    simp only [List.mem_map] at hq
    obtain ⟨p, _, hp⟩ := hq
    rw [← hp]

/-- C1 witness: the three clauses of `C1_amended` at concrete states — a
two-slot history at its last slot wraps to 0; a wrapped history overwrites
slot 0 with the new address, flag untouched; a trace log filling its
two-slot buffer clears every tracing flag. -/
theorem C1_witness :
    recordHistory ⟨[(1, 1), (2, 2)], 1, [("ADD", true)]⟩ (9, 9) =
      ⟨[(1, 1), (9, 9)], 0, [("ADD", true)]⟩ ∧
    ((recordHistory ⟨[(1, 1), (2, 2)], 0, [("ADD", true)]⟩ (9, 9)).aOpcodeHistory.head? =
        some (9, 9) ∧
      (recordHistory ⟨[(1, 1), (2, 2)], 0, [("ADD", true)]⟩ (9, 9)).traceEnabled =
        [("ADD", true)]) ∧
    ∀ q ∈ (traceLog ⟨[some "t0", none], 1, [("ADD", true), ("SUB", false)]⟩
        "ADD" "t1").traceEnabled, q.2 = false :=
  ⟨C1_amended.1 ⟨[(1, 1), (2, 2)], 1, [("ADD", true)]⟩ (9, 9) (by decide),
   C1_amended.2.1 ⟨[(1, 1), (2, 2)], 0, [("ADD", true)]⟩ (9, 9) (by decide) (by decide),
   C1_amended.2.2 ⟨[some "t0", none], 1, [("ADD", true), ("SUB", false)]⟩
     "ADD" "t1" (by decide) (by decide)⟩

/-- A real-mode style 64Kb segment: address mask 0xffff, `offMax` one past
the 0xffff limit (`getSegment` sets exactly these values for real-mode
selectors, debugger.js:1729-1730). -/
def c3Seg : Seg :=
  { maskAddr := 0xffff, offMax := 0x10000, sizeData := 2, sizeAddr := 2
    checkRead := fun off _ => 0x10000 + off
    checkWrite := fun off _ => 0x10000 + off }

/-- A machine environment owning `c3Seg` at selector 0x1000. -/
def c3Env : Env :=
  { getSeg := fun sel _ => if sel == some 0x1000 then some c3Seg else none
    probeAddr := fun _ => none
    maskAddr := 0xffffff
    msgIntHalt := false }

/-- The segmented address 0x1000:0xFFFF, resolved (cached linear
0x1FFFF), sitting at the limit of `c3Seg`. -/
def c3Addr : DbgAddr :=
  { off := 0xffff, sel := some 0x1000, addr := some 0x1ffff, type := 0
    fData32 := false, fAddr32 := false, fTempBreak := false, aCmds := none }

set_option maxRecDepth 8000 in
/-- C3 counterexample: the claim states that advancing a segmented address
past its segment's limit always invalidates the resolution (cached linear
address cleared, offset reset to 0).  Incrementing 0x1000:0xFFFF by 1
pushes the offset to 0x10000, at or past `offMax`; but `checkLimit`
(debugger.js:2000) masks the offset with the segment's address mask before
comparing, and `0x10000 & 0xFFFF = 0` is back in range, so nothing is
invalidated: the address stays resolved with the advanced cached linear
address and the out-of-limit offset. -/
theorem C3_counterexample :
    incAddr c3Env c3Addr 1 = { c3Addr with off := 0x10000, addr := some 0x20000 } ∧
    (incAddr c3Env c3Addr 1).addr ≠ none ∧
    (incAddr c3Env c3Addr 1).off ≠ 0 ∧
    c3Seg.offMax ≤ (incAddr c3Env c3Addr 1).off := by
  decide

/-- C3 amended: advancing a segmented address invalidates the resolution
(cached linear address cleared, offset reset to 0) exactly when the
advanced offset, masked with the segment's address mask, is at or past the
segment's `offMax`; otherwise — in particular whenever masking wraps the
offset back into range, as it always does for a full-size 64Kb segment —
the address stays resolved: the cached linear address (if any) is advanced
and the raw offset keeps the out-of-limit value. -/
theorem C3_amended :
    ∀ (env : Env) (d : DbgAddr) (inc : Int) (sel : Int) (seg : Seg),
      d.sel = some sel → env.getSeg (some sel) d.type = some seg →
      (seg.offMax ≤ toUint32 (jsAnd (d.off + (if inc = 0 then 1 else inc)) seg.maskAddr) →
        incAddr env d inc = { d with off := 0, addr := none }) ∧
      (toUint32 (jsAnd (d.off + (if inc = 0 then 1 else inc)) seg.maskAddr) < seg.offMax →
        incAddr env d inc =
          { d with off := d.off + (if inc = 0 then 1 else inc)
                   addr := d.addr.map (fun x => x + (if inc = 0 then 1 else inc)) }) := by
  intro env d inc sel seg hsel hseg
  constructor
  · intro hlim
    cases haddr : d.addr with
    | none =>
      simp only [incAddr, haddr, hsel, checkLimit, hseg]
      rw [if_pos hlim]
      simp
    | some a =>
      simp only [incAddr, haddr, hsel, checkLimit, hseg]
      rw [if_pos hlim]
      simp
  · intro hlim
    have hlim2 : ¬ seg.offMax ≤
        toUint32 (jsAnd (d.off + (if inc = 0 then 1 else inc)) seg.maskAddr) := by
      omega
    cases haddr : d.addr with
    | none =>
      simp only [incAddr, haddr, hsel, checkLimit, hseg, Option.map_none]
      rw [if_neg hlim2]
      simp
    | some a =>
      simp only [incAddr, haddr, hsel, checkLimit, hseg, Option.map_some]
      rw [if_neg hlim2]
      simp

set_option maxRecDepth 8000 in
/-- C3 witness: `C3_amended` at the concrete environment of the
counterexample (taking the still-resolved branch) and at a protected-mode
style segment with `offMax` 0x100 under the same 0xFFFF mask (taking the
invalidation branch). -/
theorem C3_witness :
    incAddr c3Env c3Addr 1 = { c3Addr with off := 0x10000, addr := some 0x20000 } ∧
    incAddr
        { c3Env with getSeg := fun sel _ =>
            if sel == some 8 then some { c3Seg with offMax := 0x100 } else none }
        { c3Addr with sel := some 8, off := 0xff } 1 =
      { c3Addr with sel := some 8, off := 0, addr := none } := by
  have h1 := (C3_amended c3Env c3Addr 1 0x1000 c3Seg rfl rfl).2 (by decide)
  have h2 := (C3_amended
    { c3Env with getSeg := fun sel _ =>
        if sel == some 8 then some { c3Seg with offMax := 0x100 } else none }
    { c3Addr with sel := some 8, off := 0xff } 1 8 { c3Seg with offMax := 0x100 }
    rfl rfl).1 (by decide)
  refine ⟨by rw [h1]; decide, by rw [h2]⟩

/-- Resolution through `getAddr` writes only the cache field `addr`: the
offset and selector are never changed. -/
theorem getAddr_off_sel (env : Env) (d : DbgAddr) (w : Bool) (nb : Int) :
    (getAddr env d w nb).2.off = d.off ∧ (getAddr env d w nb).2.sel = d.sel := by
  cases h : d.addr with
  | some a => simp [getAddr, h]
  | none =>
    cases hs : env.getSeg d.sel d.type with
    | none => simp [getAddr, h, hs]
    | some seg => simp [getAddr, h, hs]

/-- C7: when an address cannot be resolved to a valid linear address, the
byte accessor returns the sentinel 0xFF, the 16-bit accessor 0xFFFF and the
32-bit accessor -1, and the address is not advanced (offset and selector
are unchanged; `incAddr` is not invoked on that path).  The accessors are
total functions, so nothing is thrown. -/
theorem C7_unresolved_read_sentinels :
    ∀ (env : Env) (d : DbgAddr) (inc : Int),
      ((getAddr env d false 1).1 = ADDR_INVALID →
        (getByte env d inc).1 = 0xff ∧
        (getByte env d inc).2.off = d.off ∧ (getByte env d inc).2.sel = d.sel) ∧
      ((getAddr env d false 2).1 = ADDR_INVALID →
        (getShort env d inc).1 = 0xffff ∧
        (getShort env d inc).2.off = d.off ∧ (getShort env d inc).2.sel = d.sel) ∧
      ((getAddr env d false 4).1 = ADDR_INVALID →
        (getLong env d inc).1 = -1 ∧
        (getLong env d inc).2.off = d.off ∧ (getLong env d inc).2.sel = d.sel) := by
  intro env d inc
  refine ⟨?_, ?_, ?_⟩
  · intro h
    rcases hg : getAddr env d false 1 with ⟨a, d2⟩
    rw [hg] at h
    simp only at h
    have hos := getAddr_off_sel env d false 1
    rw [hg] at hos
    simp only [getByte, hg, h]
    simpa [ADDR_INVALID] using hos
  · intro h
    rcases hg : getAddr env d false 2 with ⟨a, d2⟩
    rw [hg] at h
    simp only at h
    have hos := getAddr_off_sel env d false 2
    rw [hg] at hos
    simp only [getShort, hg, h]
    simpa [ADDR_INVALID] using hos
  · intro h
    rcases hg : getAddr env d false 4 with ⟨a, d2⟩
    rw [hg] at h
    simp only at h
    have hos := getAddr_off_sel env d false 4
    rw [hg] at hos
    simp only [getLong, hg, h]
    simpa [ADDR_INVALID] using hos

/-- A machine environment in which no segment resolves (every selector
lookup fails), together with an unresolved segmented address. -/
def c7Env : Env :=
  { getSeg := fun _ _ => none, probeAddr := fun _ => none
    maskAddr := 0xffffff, msgIntHalt := false }

/-- An unresolved segmented address for the `C7` witness. -/
def c7Addr : DbgAddr :=
  { off := 0x10, sel := some 0x20, addr := none, type := 0
    fData32 := false, fAddr32 := false, fTempBreak := false, aCmds := none }

/-- C7 witness: the three clauses of `C7_unresolved_read_sentinels` at a
concrete unresolvable address. -/
theorem C7_witness :
    (getAddr c7Env c7Addr false 1).1 = ADDR_INVALID ∧
    (getByte c7Env c7Addr 1).1 = 0xff ∧
    (getShort c7Env c7Addr 1).1 = 0xffff ∧
    (getLong c7Env c7Addr 1).1 = -1 ∧
    (getByte c7Env c7Addr 1).2.off = c7Addr.off :=
  ⟨rfl,
   ((C7_unresolved_read_sentinels c7Env c7Addr 1).1 rfl).1,
   ((C7_unresolved_read_sentinels c7Env c7Addr 1).2.1 rfl).1,
   ((C7_unresolved_read_sentinels c7Env c7Addr 1).2.2 rfl).1,
   ((C7_unresolved_read_sentinels c7Env c7Addr 1).1 rfl).2.1⟩

/-- A hexadecimal digit character: `0`-`9`, `a`-`f` or `A`-`F`. -/
def hexDigit (c : Char) : Bool :=
  (48 ≤ c.toNat && c.toNat ≤ 57) || (97 ≤ c.toNat && c.toNat ≤ 102) ||
    (65 ≤ c.toNat && c.toNat ≤ 70)

/-- An upper-case hexadecimal digit character: `0`-`9` or `A`-`F`. -/
def hexUpper (c : Char) : Bool :=
  (48 ≤ c.toNat && c.toNat ≤ 57) || (65 ≤ c.toNat && c.toNat ≤ 70)

/-- A non-empty string of hexadecimal digit characters — a token that
`str.parseInt` would accept as a hexadecimal literal. -/
def isHexStr (s : String) : Bool := !s.data.isEmpty && s.data.all hexDigit

/-- Round trip of `Char.ofNat` for code points below the surrogate range. -/
theorem charOfNat_toNat (n : Nat) (h2 : n ≤ 0xD7FF) : (Char.ofNat n).toNat = n := by
  unfold Char.ofNat
  rw [dif_pos (by left; omega : Nat.isValidChar n)]
  rfl

/-- Upper-casing a hexadecimal digit yields an upper-case hexadecimal
digit. -/
theorem hexUpper_upCharJS (c : Char) (h : hexDigit c = true) :
    hexUpper (upCharJS c) = true := by
  unfold hexDigit at h
  unfold hexUpper upCharJS
  simp only [Bool.or_eq_true, Bool.and_eq_true, decide_eq_true_eq] at h
  rcases h with (h | h) | h
  · rw [if_neg ?c1]
    case c1 => simp only [Bool.and_eq_true, decide_eq_true_eq]; omega
    simp only [Bool.or_eq_true, Bool.and_eq_true, decide_eq_true_eq]
    exact Or.inl h
  · rw [if_pos ?c2]
    case c2 => simp only [Bool.and_eq_true, decide_eq_true_eq]; omega
    rw [charOfNat_toNat (c.toNat - 32) (by omega)]
    simp only [Bool.or_eq_true, Bool.and_eq_true, decide_eq_true_eq]
    exact Or.inr ⟨by omega, by omega⟩
  · rw [if_neg ?c3]
    case c3 => simp only [Bool.and_eq_true, decide_eq_true_eq]; omega
    simp only [Bool.or_eq_true, Bool.and_eq_true, decide_eq_true_eq]
    exact Or.inr h

/-- A scan by `indexOfAux` misses when no element equals the key. -/
theorem indexOfAux_eq_none {α : Type} [BEq α] (l : List α) (x : α)
    (h : ∀ y ∈ l, (y == x) = false) : indexOfAux l x = none := by
  induction l with
  | nil => rfl
  | cons y ys ih =>
    simp only [indexOfAux, h y (List.mem_cons_self y ys)]
    rw [ih fun z hz => h z (List.mem_cons_of_mem y hz)]
    rfl

/-- Every name in the register table contains a character that is not an
upper-case hexadecimal digit. -/
theorem regs_no_hex_name :
    REGS.all (fun o => o.elim true fun r => !r.data.all hexUpper) = true := by
  decide

/-- A non-empty upper-case hexadecimal string never matches a register
name. -/
theorem getRegIndex_none_of_hex (s : String) (h : isHexStr s = true) :
    getRegIndex s = none := by
  have hup : (toUpperJS s).data.all hexUpper = true := by
    simp only [toUpperJS, List.all_map]
    simp only [isHexStr, Bool.and_eq_true, List.all_eq_true] at h ⊢
    intro c hc
    exact hexUpper_upCharJS c (h.2 c hc)
  apply indexOfAux_eq_none
  intro y hy
  have hr := List.all_eq_true.mp regs_no_hex_name y hy
  cases y with
  | none => rfl
  | some r =>
    simp only [Option.elim_some] at hr
    have hne : r ≠ toUpperJS s := by
      intro he
      rw [he, hup] at hr
      simp at hr
    simpa using hne

/-- C9: `parseValue` consults registers first, then user variables, then
the numeric interpretation; since no register name is a pure hexadecimal
digit string, a user variable whose name is a valid (non-empty) hex digit
string always shadows the numeric interpretation of that token. -/
theorem C9_variable_shadows_hex_literal :
    ∀ (env : EvalEnv) (s : String) (v : Int),
      isHexStr s = true → env.vars.lookup s = some v →
      parseValue env s = some v := by
  intro env s v hhex hvar
  simp [parseValue, getRegIndex_none_of_hex s hhex, hvar]

/-- C9 witness: with the user variable `ff = 7` defined (and `ff` a valid
hex digit string that would otherwise parse as 255), `parseValue` returns
the variable's value. -/
theorem C9_witness :
    isHexStr "ff" = true ∧ parseIntSpec "ff" = some 255 ∧
    parseValue { vars := [("ff", 7)], regValue := fun _ => none } "ff" = some 7 :=
  ⟨by decide, by decide,
   C9_variable_shadows_hex_literal { vars := [("ff", 7)], regValue := fun _ => none }
     "ff" 7 (by decide) (by decide)⟩

/-- `Nat.land` is the `&&&` operation. -/
theorem land_eq_hAnd (x y : Nat) : Nat.land x y = x &&& y := rfl

/-- Bit `i` of `2^16 * a + r` (with `r < 2^16`) is bit `i` of `r` below
position 16 and bit `i - 16` of `a` from position 16 on. -/
theorem testBit_hi_lo (a r i : Nat) (h : r < 2 ^ 16) :
    Nat.testBit (2 ^ 16 * a + r) i =
      if i < 16 then Nat.testBit r i else Nat.testBit a (i - 16) := by
  by_cases hi : i < 16
  · rw [if_pos hi, Nat.testBit_to_div_mod, Nat.testBit_to_div_mod]
    have h1 : 2 ^ 16 * a + r = r + 2 ^ i * (2 ^ (16 - i) * a) := by
      rw [← Nat.mul_assoc, ← Nat.pow_add]
      rw [show i + (16 - i) = 16 by omega]
      omega
    rw [h1, Nat.add_mul_div_left _ _ (Nat.pos_pow_of_pos i (by omega))]
    have h2 : 2 ^ (16 - i) * a = (2 ^ (15 - i) * a) * 2 := by
      rw [show (16 - i) = (15 - i) + 1 by omega, pow_succ]
      ring
    rw [h2, Nat.add_mul_mod_self_right]
  · rw [if_neg hi, Nat.testBit_to_div_mod, Nat.testBit_to_div_mod]
    have hpow : (2:Nat) ^ i = 2 ^ 16 * 2 ^ (i - 16) := by
      rw [← Nat.pow_add]
      congr 1
      omega
    have h1 : (2 ^ 16 * a + r) / 2 ^ i = a / 2 ^ (i - 16) := by
      rw [hpow, ← Nat.div_div_eq_div_mul]
      congr 1
      rw [Nat.add_comm, Nat.mul_comm,
        Nat.add_mul_div_right _ _ (Nat.pos_pow_of_pos 16 (by omega)),
        Nat.div_eq_of_lt h]
      omega
    rw [h1]

/-- An address with all of bits 16-23 set keeps them all under masking
with 0xFF0000. -/
theorem land_top64 (r : Nat) (h : r < 2 ^ 16) :
    Nat.land (2 ^ 16 * 255 + r) (2 ^ 16 * 255) = 2 ^ 16 * 255 := by
  rw [land_eq_hAnd]
  apply Nat.eq_of_testBit_eq
  intro i
  rw [Nat.testBit_land, testBit_hi_lo 255 r i h,
    show (2:Nat) ^ 16 * 255 = 2 ^ 16 * 255 + 0 by omega,
    testBit_hi_lo 255 0 i (by omega)]
  by_cases hi : i < 16
  · simp [hi]
  · simp [hi]

/-- Masking an address with all of bits 16-23 set down to the low 20 bits
keeps bits 16-19 and the low 16 bits. -/
theorem land_low20 (r : Nat) (h : r < 2 ^ 16) :
    Nat.land (2 ^ 16 * 255 + r) 0xfffff = 2 ^ 16 * 15 + r := by
  rw [land_eq_hAnd]
  apply Nat.eq_of_testBit_eq
  intro i
  rw [Nat.testBit_land, testBit_hi_lo 255 r i h,
    show (0xfffff : Nat) = 2 ^ 16 * 15 + (2 ^ 16 - 1) by norm_num,
    testBit_hi_lo 15 (2 ^ 16 - 1) i (by omega),
    testBit_hi_lo 15 r i h]
  by_cases hi : i < 16
  · have h16 : Nat.testBit 65535 i = true := by
      rw [show (65535:Nat) = 2 ^ 16 - 1 by norm_num, Nat.testBit_two_pow_sub_one]
      simpa using hi
    simp [hi, h16]
  · simp only [hi, if_false]
    rw [show (255:Nat) = 2 ^ 8 - 1 by norm_num, show (15:Nat) = 2 ^ 4 - 1 by norm_num,
      Nat.testBit_two_pow_sub_one, Nat.testBit_two_pow_sub_one]
    by_cases h4 : i - 16 < 4
    · have h8 : i - 16 < 8 := by omega
      simp [h4, h8]
    · simp [h4]

/-- On natural operands below `2^31`, `jsAnd` is `Nat.land`. -/
theorem jsAnd_natCast (x y : Nat) (hx : x < 2 ^ 31) (hy : y < 2 ^ 31) :
    jsAnd (x : Int) (y : Int) = (Nat.land x y : Int) := by
  have hland : Nat.land x y < 2 ^ 31 := by
    have := Nat.bitwise_lt (f := and) hx hy
    simpa [Nat.land] using this
  simp only [jsAnd, toInt32, toUint32, pow32, pow31]
  have e1 : Int.emod (x : Int) 4294967296 = (x : Int) := by
    apply Int.emod_eq_of_lt
    · exact Int.ofNat_nonneg x
    · exact_mod_cast (by omega : x < 4294967296)
  have e2 : Int.emod (y : Int) 4294967296 = (y : Int) := by
    apply Int.emod_eq_of_lt
    · exact Int.ofNat_nonneg y
    · exact_mod_cast (by omega : y < 4294967296)
  rw [e1, e2]
  simp only [Int.toNat_natCast, Int.ofNat_eq_natCast]
  have e3 : Int.emod (Nat.land x y : Int) 4294967296 = (Nat.land x y : Int) := by
    apply Int.emod_eq_of_lt
    · exact Int.ofNat_nonneg _
    · exact_mod_cast (by omega : Nat.land x y < 4294967296)
  rw [e3]
  rw [if_pos (by exact_mod_cast (by omega : Nat.land x y < 2147483648))]

/-- A 16Mb-bus machine environment (address mask 0xFFFFFF, so the
addressable range is 16Mb and its top is 0x1000000), with the INT/HALT
message check off and no live segments (the breakpoint below is pinned to
its physical address, `sel = none`, so segments are never consulted). -/
def c6Env : Env :=
  { getSeg := fun _ _ => none, probeAddr := fun _ => none
    maskAddr := 0xffffff, msgIntHalt := false }

/-- An execution breakpoint pinned at physical address 0xFFFFF0, which is
`addressSpaceTop - 0x10` on the 16Mb machine. -/
def c6Bp : DbgAddr :=
  { off := 0, sel := none, addr := some 0xfffff0, type := 0
    fData32 := false, fAddr32 := false, fTempBreak := false, aCmds := none }

/-- A trivial command machine for breakpoints without attached commands. -/
def c6M : Machine Unit :=
  { doCmd := fun _ s => (true, s), isRunning := fun _ => true }

/-- C6: on the 16Mb machine, every address in the top 64Kb of the
addressable range (all address bits above the low 16 set under the address
mask, i.e. `0xFF0000 + r` with `r < 2^16`) is remapped by `mapBreakpoint`
into the top 64Kb of the first 1Mb (to `0xF0000 + r`); and in particular a
breakpoint set at physical address `addressSpaceTop - 0x10 = 0xFFFFF0` is
hit by `checkBreakpoint` for an execution at `0x000FFFF0`. -/
theorem C6_top64k_alias :
    (∀ r : Nat, r < 65536 →
      mapBreakpoint c6Env (0xff0000 + (r : Int)) = 0xf0000 + (r : Int) ∧
      0xf0000 ≤ mapBreakpoint c6Env (0xff0000 + (r : Int)) ∧
      mapBreakpoint c6Env (0xff0000 + (r : Int)) ≤ 0xfffff) ∧
    c6Env.maskAddr + 1 - 0x10 = 0xfffff0 ∧
    checkBreakpoint c6Env c6M 0 0xffff0 1 [c6Bp] false () = (true, [c6Bp], ()) := by
  refine ⟨?_, by decide, by decide⟩
  intro r hr
  have hmap : mapBreakpoint c6Env (0xff0000 + (r : Int)) = 0xf0000 + (r : Int) := by
    have hmaskc : jsAnd c6Env.maskAddr (jsNot 0xffff) = 0xff0000 := by decide
    have haddr : (0xff0000 : Int) + (r : Int) = ((2 ^ 16 * 255 + r : Nat) : Int) := by
      push_cast
      ring
    have hx : 2 ^ 16 * 255 + r < 2 ^ 31 := by omega
    unfold mapBreakpoint
    rw [if_pos ?hne]
    case hne =>
      simp only [bne_iff_ne, ne_eq, ADDR_INVALID]
      omega
    rw [hmaskc, haddr]
    rw [if_pos ?hcond]
    case hcond =>
      rw [show (0xff0000 : Int) = ((2 ^ 16 * 255 : Nat) : Int) by norm_num]
      rw [jsAnd_natCast _ _ hx (by norm_num)]
      rw [land_top64 r (by omega)]
      exact beq_self_eq_true _
    rw [show (0x000fffff : Int) = ((0xfffff : Nat) : Int) by norm_num]
    rw [jsAnd_natCast _ _ hx (by norm_num)]
    rw [land_low20 r (by omega)]
    push_cast
    ring
  refine ⟨hmap, ?_, ?_⟩
  · rw [hmap]
    omega
  · rw [hmap]
    omega

/-- C6 witness: the general clause of `C6_top64k_alias` instantiated at
`r = 0xFFF0`, i.e. exactly the breakpoint address `0xFFFFF0` of the claim,
mapping to `0x000FFFF0`. -/
theorem C6_witness :
    mapBreakpoint c6Env (0xff0000 + ((0xfff0 : Nat) : Int)) =
      0xf0000 + ((0xfff0 : Nat) : Int) :=
  (C6_top64k_alias.1 0xfff0 (by omega)).1



/-- The else-scan helper finds, from absolute index `k0`, exactly the first
command starting with `"else"`: a miss means every remaining command fails
the test, and a hit at `k` means the suffix from `k` is what `dropWhile`
of the not-else test leaves. -/
theorem findElseGo_spec (l : List String) : ∀ k0,
    (match findElseFrom.findElseGo l k0 with
     | none => l.dropWhile (fun s => !(s.startsWith "else")) = []
     | some k => k0 ≤ k ∧ k - k0 < l.length ∧
        l.dropWhile (fun s => !(s.startsWith "else")) = l.drop (k - k0) : Prop) := by
  induction l with
  | nil => intro k0; simp [findElseFrom.findElseGo]
  | cons s rest ih =>
    intro k0
    by_cases hs : s.startsWith "else"
    · simp [findElseFrom.findElseGo, hs, List.dropWhile]
    · rw [findElseFrom.findElseGo]
      rw [if_neg hs]
      have := ih (k0 + 1)
      rcases hgo : findElseFrom.findElseGo rest (k0 + 1) with _ | k
      · rw [hgo] at this
        simpa [List.dropWhile, hs] using this
      · rw [hgo] at this
        obtain ⟨h1, h2, h3⟩ := this
        refine ⟨by omega, by simpa using by omega, ?_⟩
        rw [show k - k0 = (k - (k0 + 1)) + 1 by omega]
        simpa [List.dropWhile, hs] using h3

/-- The index-based command loop of the code agrees with the list-based
claim model `specRunCmds` on every suffix: an abort in the loop is a `none`
of the model, and a completed run ends in the same machine state. -/
theorem runCmdsLoop_spec {σ : Type} (M : Machine σ) (a : List String) :
    ∀ fuel j st, a.length < j + fuel →
      (match specRunCmds M (a.drop j) st with
       | none => (runCmdsLoop M a fuel j st).1 = true
       | some stf => runCmdsLoop M a fuel j st = (false, stf) : Prop) := by
  intro fuel
  induction fuel with
  | zero =>
    intro j st hj
    have hdrop : a.drop j = [] := List.drop_eq_nil_of_le (by omega)
    rw [hdrop, specRunCmds, runCmdsLoop]
  | succ fuel ih =>
    intro j st hj
    cases hgj : a[j]? with
    | none =>
      have hlen : a.length ≤ j := by
        simpa using List.getElem?_eq_none_iff.mp hgj
      have hdrop : a.drop j = [] := List.drop_eq_nil_of_le hlen
      rw [hdrop, specRunCmds, runCmdsLoop, hgj]
    | some c =>
      have hjlen : j < a.length := by
        by_contra hcon
        rw [List.getElem?_eq_none (by omega)] at hgj
        exact Option.noConfusion hgj
      have hc : a[j] = c := by
        have := List.getElem?_eq_getElem hjlen
        rw [hgj] at this
        exact (Option.some_inj.mp this).symm
      have hdrop : a.drop j = c :: a.drop (j + 1) := by
        rw [List.drop_eq_getElem_cons hjlen, hc]
      rw [hdrop, specRunCmds, runCmdsLoop, hgj]
      cases hok : (M.doCmd c st).1 with
      | true =>
        simp only [hok, if_pos rfl]
        exact ih (j + 1) (M.doCmd c st).2 (by omega)
      | false =>
        simp only [hok, Bool.false_eq_true, if_false]
        by_cases hif : c.startsWith "if"
        · have hnif : (!c.startsWith "if") = false := by simp [hif]
          simp only [hnif, Bool.false_eq_true, if_false]
          have hgo := findElseGo_spec (a.drop (j + 1)) (j + 1)
          rw [findElseFrom]
          rcases helse : findElseFrom.findElseGo (a.drop (j + 1)) (j + 1) with _ | k
          · rw [helse] at hgo
            simp only [hgo, List.isEmpty_nil, if_pos rfl]
            simp
          · rw [helse] at hgo
            obtain ⟨h1, h2, h3⟩ := hgo
            have hkdrop : (a.drop (j + 1)).drop (k - (j + 1)) = a.drop k := by
              rw [List.drop_drop]
              congr 1
              omega
            have hne : ((a.drop (j + 1)).drop (k - (j + 1))).length ≠ 0 := by
              rw [List.length_drop, List.length_drop]
              rw [List.length_drop] at h2
              omega
            have hemp3 : (a.drop k).isEmpty = false := by
              rw [← hkdrop]
              rcases hd : (a.drop (j + 1)).drop (k - (j + 1)) with _ | ⟨x, xs⟩
              · exact absurd (by rw [hd]; rfl) hne
              · rfl
            simp only [h3, hkdrop, hemp3, Bool.false_eq_true, if_false]
            exact ih k (M.doCmd c st).2 (by omega)
        · have hnif : (!c.startsWith "if") = true := by simp [hif]
          simp only [hnif, if_pos rfl]
          simp [hif]

/-- Resolution through `getAddr` keeps the temp-break flag. -/
theorem getAddr_fTempBreak (env : Env) (d : DbgAddr) (w : Bool) (nb : Int) :
    (getAddr env d w nb).2.fTempBreak = d.fTempBreak := by
  cases h : d.addr with
  | some a => simp [getAddr, h]
  | none =>
    cases hs : env.getSeg d.sel d.type with
    | none => simp [getAddr, h, hs]
    | some seg => simp [getAddr, h, hs]

/-- Resolution through `getAddr` keeps the attached command list. -/
theorem getAddr_aCmds (env : Env) (d : DbgAddr) (w : Bool) (nb : Int) :
    (getAddr env d w nb).2.aCmds = d.aCmds := by
  cases h : d.addr with
  | some a => simp [getAddr, h]
  | none =>
    cases hs : env.getSeg d.sel d.type with
    | none => simp [getAddr, h, hs]
    | some seg => simp [getAddr, h, hs]

/-- The hit flag computed by `runBpCmds` (command loop plus the final
halted-CPU check) is the claim model's `specBpCmdsHit`. -/
theorem runBpCmds_eq_spec {σ : Type} (M : Machine σ) (a : List String) (st : σ) :
    (runBpCmds M a st).1 = specBpCmdsHit M a st := by
  have h := runCmdsLoop_spec M a (a.length + 1) 0 st (by omega)
  rw [List.drop_zero] at h
  unfold runBpCmds specBpCmdsHit
  rcases hs : specRunCmds M a st with _ | stf
  · rw [hs] at h
    simp [h]
  · rw [hs] at h
    rw [h]
    simp

/-- `checkBreakpoint` on a single permanent breakpoint with attached
commands that matches the probed span reports a hit exactly per
`specBpCmdsHit`. -/
theorem checkBp_single_cmds {σ : Type} (M : Machine σ) (env : Env) (st : σ)
    (cmds : List String) (bp : DbgAddr) (addr : Int) (nb : Nat)
    (hmsg : env.msgIntHalt = false)
    (hcmds : bp.aCmds = some cmds) (htmp : bp.fTempBreak = false)
    (hspan : spanHit (mapBreakpoint env addr) nb
      (mapBreakpoint env (getAddr env
        (if bp.sel != none then { bp with addr := none } else bp) false 1).1) = true) :
    (checkBreakpoint env M 0 addr nb [bp] false st).1 =
      specBpCmdsHit M cmds st := by
  have hrun := runBpCmds_eq_spec M cmds st
  have h1 : (getAddr env (if bp.sel != none then { bp with addr := none } else bp)
      false 1).2.fTempBreak = false := by
    rw [getAddr_fTempBreak]
    rcases hsel : bp.sel with _ | s <;> simp [hsel, htmp]
  have h2 : (getAddr env (if bp.sel != none then { bp with addr := none } else bp)
      false 1).2.aCmds = some cmds := by
    rw [getAddr_aCmds]
    rcases hsel : bp.sel with _ | s <;> simp [hsel, hcmds]
  simp only [checkBreakpoint]
  rw [if_neg (by decide)]
  rw [hmsg]
  simp only [Bool.false_and, Bool.false_eq_true, if_false, List.length_cons,
    List.length_nil]
  rw [cbLoop]
  simp only [List.getElem?_cons_zero, Bool.false_and, Bool.false_eq_true, if_false,
    hspan, if_pos rfl, h1, h2]
  rcases hr : runBpCmds M cmds st with ⟨fb, st2⟩
  rw [hr] at hrun
  cases fb with
  | true => simpa using hrun
  | false =>
    simp only [Bool.false_eq_true, if_false]
    rw [cbLoop]
    simp only [List.getElem?_cons_succ, List.getElem?_nil]
    simpa using hrun

/-- C5: for a breakpoint carrying attached commands, the breakpoint check
reports a hit in exactly the claimed cases.  First clause: the hit flag of
the attached-command run (`runBpCmds`, lines 3916-3938 of
`checkBreakpoint`) equals the claim model `specBpCmdsHit` — a hit iff a
failing `"if"` command has no later `"else"` (rest skipped, hit forced), or
a failing non-`"if"` command aborts, or the commands complete with the CPU
no longer running; completion with the CPU still running reports no hit.
Second clause: `checkBreakpoint` itself, on a matching permanent breakpoint
with attached commands, reports exactly that flag. -/
theorem C5_attached_command_hit_iff :
    (∀ (σ : Type) (M : Machine σ) (a : List String) (st : σ),
      (runBpCmds M a st).1 = specBpCmdsHit M a st) ∧
    (∀ (σ : Type) (M : Machine σ) (env : Env) (st : σ) (cmds : List String)
       (bp : DbgAddr) (addr : Int) (nb : Nat),
      env.msgIntHalt = false → bp.aCmds = some cmds → bp.fTempBreak = false →
      spanHit (mapBreakpoint env addr) nb
        (mapBreakpoint env (getAddr env
          (if bp.sel != none then { bp with addr := none } else bp) false 1).1) = true →
      (checkBreakpoint env M 0 addr nb [bp] false st).1 =
        specBpCmdsHit M cmds st) :=
  ⟨fun _ M a st => runBpCmds_eq_spec M a st,
   fun _ M env st cmds bp addr nb h1 h2 h3 h4 =>
     checkBp_single_cmds M env st cmds bp addr nb h1 h2 h3 h4⟩

/-- A two-state command machine for the C5 witness: the state is the CPU
running flag; `"h"` halts, `"if 0"` fails, anything else succeeds. -/
def c5M : Machine Bool :=
  { doCmd := fun s st =>
      if s = "h" then (true, false)
      else if s = "if 0" then (false, st)
      else (true, st)
    isRunning := fun st => st }

/-- A permanent physical-address breakpoint at 0x100 carrying the command
sequence of the C5 witness. -/
def c5Bp : DbgAddr :=
  { off := 0, sel := none, addr := some 0x100, type := 0
    fData32 := false, fAddr32 := false, fTempBreak := false
    aCmds := some ["if 0", "r", "else", "h"] }

/-- C5 witness: both clauses of `C5_attached_command_hit_iff` at concrete
inputs — an execution at 0x100 matching `c5Bp`, whose failed `"if 0"`
skips to the `"else"` and then halts via `"h"`. -/
theorem C5_witness :
    (runBpCmds c5M ["if 0", "r", "else", "h"] true).1 =
      specBpCmdsHit c5M ["if 0", "r", "else", "h"] true ∧
    (checkBreakpoint c7Env c5M 0 0x100 1 [c5Bp] false true).1 =
      specBpCmdsHit c5M ["if 0", "r", "else", "h"] true :=
  ⟨C5_attached_command_hit_iff.1 Bool c5M ["if 0", "r", "else", "h"] true,
   C5_attached_command_hit_iff.2 Bool c5M c7Env true ["if 0", "r", "else", "h"]
     c5Bp 0x100 1 rfl rfl rfl (by decide)⟩


/-- Bitwise AND is bounded by any power-of-two bound of its right operand. -/
theorem land_lt_pow (x y k : Nat) (hy : y < 2 ^ k) : Nat.land x y < 2 ^ k := by
  apply Nat.lt_pow_two_of_testBit
  intro i hi
  rw [land_eq_hAnd, Nat.testBit_land,
    Nat.testBit_eq_false_of_lt (lt_of_lt_of_le hy (Nat.pow_le_pow_right (by omega) hi))]
  simp

/-- Masking to the low 20 bits always yields a non-negative value. -/
theorem jsAnd_low20_nonneg (a : Int) : 0 ≤ jsAnd a 0x000fffff := by
  simp only [jsAnd, toInt32, toUint32, pow31, pow32]
  have hv : (Int.emod 0x000fffff 4294967296).toNat = 0xfffff := by decide
  rw [hv]
  have hland : Nat.land (Int.emod a 4294967296).toNat 0xfffff < 2 ^ 20 :=
    land_lt_pow _ _ 20 (by norm_num)
  have he : Int.emod (Int.ofNat (Nat.land (Int.emod a 4294967296).toNat 0xfffff)) 4294967296 =
      Int.ofNat (Nat.land (Int.emod a 4294967296).toNat 0xfffff) := by
    apply Int.emod_eq_of_lt
    · exact Int.ofNat_nonneg _
    · rw [Int.ofNat_eq_natCast]
      exact_mod_cast (by omega : Nat.land (Int.emod a 4294967296).toNat 0xfffff < 4294967296)
  rw [he]
  rw [if_pos ?hlt]
  case hlt =>
    rw [Int.ofNat_eq_natCast]
    exact_mod_cast (by omega : Nat.land (Int.emod a 4294967296).toNat 0xfffff < 2147483648)
  exact Int.ofNat_nonneg _

/-- `mapBreakpoint` sends valid addresses to valid addresses. -/
theorem mapBreakpoint_ne_invalid (env : Env) (a : Int) (h : a ≠ ADDR_INVALID) :
    mapBreakpoint env a ≠ ADDR_INVALID := by
  unfold mapBreakpoint
  rw [if_pos (by simpa [bne_iff_ne] using h)]
  by_cases hc : (jsAnd a (jsAnd env.maskAddr (jsNot 0xffff)) == jsAnd env.maskAddr (jsNot 0xffff)) = true
  · rw [if_pos hc]
    have := jsAnd_low20_nonneg a
    simp only [ADDR_INVALID]
    omega
  · rw [if_neg hc]
    exact h

/-- The match test of `findBreakpoint`'s scan (debugger.js:3728-3729) for a
query with mapped resolved address `addr` and fields `d` against a list
entry `e` (whose resolution `getAddr` computes, and caches, on the fly). -/
def bpMatches (env : Env) (addr : Int) (d e : DbgAddr) : Bool :=
  (addr != ADDR_INVALID && addr == mapBreakpoint env (getAddr env e false 1).1) ||
  (addr == ADDR_INVALID && d.sel == e.sel && d.off == e.off)

/-- A second resolution of an address already passed through `getAddr`
returns the same result and leaves the address unchanged (the first call
either found or wrote the cache, or failed without a segment and will fail
identically again). -/
theorem getAddr_idem (env : Env) (d : DbgAddr) (w : Bool) (nb : Int) (w2 : Bool) (nb2 : Int) :
    getAddr env (getAddr env d w nb).2 w2 nb2 = getAddr env d w nb := by
  cases h : d.addr with
  | some a => simp [getAddr, h]
  | none =>
    cases hs : env.getSeg d.sel d.type with
    | none => simp [getAddr, h, hs]
    | some seg => simp [getAddr, h, hs]

/-- The match test is stable under the cache update `getAddr` performs on
the entry. -/
theorem bpMatches_getAddr (env : Env) (addr : Int) (d e : DbgAddr) :
    bpMatches env addr d (getAddr env e false 1).2 = bpMatches env addr d e := by
  unfold bpMatches
  rw [getAddr_idem]
  have hos := getAddr_off_sel env e false 1
  rw [hos.1, hos.2]

/-- The match test only reads the query's selector and offset. -/
theorem bpMatches_query_congr (env : Env) (addr : Int) (d d2 e : DbgAddr)
    (hsel : d.sel = d2.sel) (hoff : d.off = d2.off) :
    bpMatches env addr d e = bpMatches env addr d2 e := by
  unfold bpMatches
  rw [hsel, hoff]

/-- When no entry matches, the scan reports not-found and only performs
the cache updates. -/
theorem findBPAux_nomatch (env : Env) (addr : Int) (d : DbgAddr) (fR fT : Bool) :
    ∀ l : List DbgAddr, (∀ e ∈ l, bpMatches env addr d e = false) →
      findBPAux env addr d fR fT l =
        (false, l.map fun e => (getAddr env e false 1).2) := by
  intro l
  induction l with
  | nil => intro _; rfl
  | cons e rest ih =>
    intro h
    have he : bpMatches env addr d e = false := h e (List.mem_cons_self e rest)
    have hrest := ih fun x hx => h x (List.mem_cons_of_mem e hx)
    rcases hga : getAddr env e false 1 with ⟨ae, e1⟩
    have hcond : ((addr != ADDR_INVALID && addr == mapBreakpoint env ae) ||
        (addr == ADDR_INVALID && d.sel == e.sel && d.off == e.off)) = false := by
      unfold bpMatches at he
      rw [hga] at he
      exact he
    unfold findBPAux
    rw [hga]
    simp only [hcond, Bool.false_eq_true, if_false, hrest, List.map_cons, hga]

/-- When the last entry matches and nothing before it does, the scan
reports found, and removes exactly that entry when asked to. -/
theorem findBPAux_append_match (env : Env) (addr : Int) (d : DbgAddr) (fR : Bool) :
    ∀ (l : List DbgAddr) (d2 : DbgAddr),
      (∀ e ∈ l, bpMatches env addr d e = false) →
      bpMatches env addr d d2 = true →
      findBPAux env addr d fR false (l ++ [d2]) =
        (true, (l.map fun e => (getAddr env e false 1).2) ++
          (if fR then [] else [(getAddr env d2 false 1).2])) := by
  intro l
  induction l with
  | nil =>
    intro d2 _ hm
    rcases hga : getAddr env d2 false 1 with ⟨ae, e1⟩
    have hcond : ((addr != ADDR_INVALID && addr == mapBreakpoint env ae) ||
        (addr == ADDR_INVALID && d.sel == d2.sel && d.off == d2.off)) = true := by
      unfold bpMatches at hm
      rw [hga] at hm
      exact hm
    simp only [List.nil_append, List.map_nil]
    unfold findBPAux
    rw [hga]
    simp only [hcond, if_pos rfl, Bool.not_false, Bool.true_or]
    cases fR <;> simp
  | cons e rest ih =>
    intro d2 h hm
    have he : bpMatches env addr d e = false := h e (List.mem_cons_self e rest)
    have hrest := ih d2 (fun x hx => h x (List.mem_cons_of_mem e hx)) hm
    rcases hga : getAddr env e false 1 with ⟨ae, e1⟩
    have hcond : ((addr != ADDR_INVALID && addr == mapBreakpoint env ae) ||
        (addr == ADDR_INVALID && d.sel == e.sel && d.off == e.off)) = false := by
      unfold bpMatches at he
      rw [hga] at he
      exact he
    rw [List.cons_append]
    unfold findBPAux
    rw [hga]
    simp only [hcond, Bool.false_eq_true, if_false, hrest, List.map_cons,
      List.cons_append, hga]

/-- The cache update of `getAddr` is idempotent. -/
theorem upd_idem (env : Env) (x : DbgAddr) :
    (getAddr env (getAddr env x false 1).2 false 1).2 = (getAddr env x false 1).2 :=
  congrArg Prod.snd (getAddr_idem env x false 1 false 1)

/-- C4: breakpoint round-trip on the exec list.  For every address
resolvable by `getAddr` and any exec list with no breakpoint matching it:
`addBreakpoint` succeeds and pushes the breakpoint; `findBreakpoint` then
finds it; `findBreakpoint` with remove finds and removes it; and a second
`findBreakpoint` no longer finds it. -/
theorem C4_breakpoint_roundtrip :
    ∀ (env : Env) (L : List DbgAddr) (d : DbgAddr),
      (getAddr env d false 1).1 ≠ ADDR_INVALID →
      (∀ e ∈ L, bpMatches env (mapBreakpoint env (getAddr env d false 1).1) d e = false) →
      ∃ L1 d1,
        addBreakpointExec env L d false = (true, L1, d1) ∧
        (findBreakpoint env L1 d1 false false).1 = true ∧
        (findBreakpoint env (findBreakpoint env L1 d1 true false).2.1 d1 false false).1 =
          false := by
  intro env L d hres hnm
  rcases hga : getAddr env d false 1 with ⟨a0, d1⟩
  rw [hga] at hres hnm
  simp only at hres hnm
  have hos := getAddr_off_sel env d false 1
  rw [hga] at hos
  have hidem : getAddr env d1 false 1 = (a0, d1) := by
    have := getAddr_idem env d false 1 false 1
    rw [hga] at this
    exact this
  have hupd1 : (getAddr env d1 false 1).2 = d1 := by rw [hidem]
  set addr := mapBreakpoint env a0 with haddr
  have hnm1 : ∀ e ∈ L, bpMatches env addr d1 e = false := by
    intro e he
    rw [← bpMatches_query_congr env addr d d1 e hos.2.symm hos.1.symm]
    exact hnm e he
  have hnmm : ∀ e ∈ L.map (fun x => (getAddr env x false 1).2),
      bpMatches env addr d1 e = false := by
    intro e he
    rcases List.mem_map.mp he with ⟨x, hx, hex⟩
    rw [← hex, bpMatches_getAddr]
    exact hnm1 x hx
  have hself : bpMatches env addr d1 d1 = true := by
    unfold bpMatches
    rw [hidem]
    simp only [← haddr]
    have h1 : (addr != ADDR_INVALID) = true := by
      rw [bne_iff_ne]
      exact mapBreakpoint_ne_invalid env a0 hres
    rw [h1]
    simp
  have hmapidem : (L.map fun x => (getAddr env x false 1).2).map
      (fun x => (getAddr env x false 1).2) = L.map fun x => (getAddr env x false 1).2 := by
    rw [List.map_map]
    apply List.map_congr_left
    intro x _
    exact upd_idem env x
  -- step 1: addBreakpointExec
  have hfind0 : findBreakpoint env L d true false =
      (false, L.map fun x => (getAddr env x false 1).2, d1) := by
    unfold findBreakpoint
    rw [hga]
    simp only [← haddr]
    rw [findBPAux_nomatch env addr d1 true false L hnm1]
  have hadd : addBreakpointExec env L d false =
      (true, (L.map fun x => (getAddr env x false 1).2) ++ [d1], d1) := by
    unfold addBreakpointExec
    simp only [Bool.not_false, if_pos rfl, hfind0, Bool.false_eq_true, if_false]
    simp
  refine ⟨(L.map fun x => (getAddr env x false 1).2) ++ [d1], d1, hadd, ?_, ?_⟩
  · unfold findBreakpoint
    rw [hidem]
    simp only [← haddr]
    rw [findBPAux_append_match env addr d1 false _ d1 hnmm hself]
  · have hrem : findBreakpoint env
        ((L.map fun x => (getAddr env x false 1).2) ++ [d1]) d1 true false =
        (true, L.map fun x => (getAddr env x false 1).2, d1) := by
      unfold findBreakpoint
      rw [hidem]
      simp only [← haddr]
      rw [findBPAux_append_match env addr d1 true _ d1 hnmm hself]
      simp only [hmapidem]
      simp
    rw [hrem]
    simp only
    unfold findBreakpoint
    rw [hidem]
    simp only [← haddr]
    rw [findBPAux_nomatch env addr d1 false false _ hnmm]


/-- C4 witness: `C4_breakpoint_roundtrip` on the empty exec list with the
resolved segmented address 0x1000:0xFFFF of the `c3Env` machine. -/
theorem C4_witness :
    ∃ L1 d1,
      addBreakpointExec c3Env [] c3Addr false = (true, L1, d1) ∧
      (findBreakpoint c3Env L1 d1 false false).1 = true ∧
      (findBreakpoint c3Env (findBreakpoint c3Env L1 d1 true false).2.1 d1 false
          false).1 = false :=
  C4_breakpoint_roundtrip c3Env [] c3Addr (by decide)
    (fun e he => absurd he (List.not_mem_nil e))

end PcjsDbg
